import Mathlib

set_option maxRecDepth 8192

/-!
Shallow embedding of the obsidian-webdav-image-uploader core:
the WebDAV client (`src/webdav.ts`, given as `unnamed/part_000`) and the
image proxy loader (`src/settings.ts`), together with models of the
JavaScript string/URI primitives they call (`encodeURI`,
`encodeURIComponent`, `decodeURIComponent`, `atob`, `btoa`,
`String.prototype.replace` with an empty replacement, `split`/`join`).

JavaScript strings are modelled as lists of Unicode scalar values
(`List Char`); this covers every well-formed JS string (lone surrogates,
on which the URI encoders throw anyway, are not representable).
-/

abbrev JStr := List Char

/-- Convert a Lean string literal to the JS-string model. -/
def js (s : String) : JStr := s.toList

/-- Decimal rendering of a natural number, as used by JS template strings. -/
def natStr (n : Nat) : JStr := (Nat.repr n).toList

/-- The ASCII apostrophe, used by the client's quoted error messages. -/
def quoteCh : Char := Char.ofNat 39

/-- Wrap a string in ASCII apostrophes, as the client's error messages do. -/
def quoted (s : JStr) : JStr := quoteCh :: s ++ [quoteCh]

/-- Model of JS `s.replace(pat, "")`: remove the first occurrence of `pat`
from `s` (searching left to right); `s` unchanged when `pat` never occurs.
`jsRemoveFirst pat s` is `s.replace(pat, "")`. -/
def jsRemoveFirst (pat : JStr) : JStr → JStr
  | [] => []
  | c :: rest =>
    if pat.isPrefixOf (c :: rest) then (c :: rest).drop pat.length
    else c :: jsRemoveFirst pat rest

/-- Model of JS `s.split("/")` (the separator is a single character, so the
JS UTF-16 split agrees with the scalar-value split). `""` splits to `[""]`. -/
def splitSlash : JStr → List JStr
  | [] => [[]]
  | c :: rest =>
    if c = '/' then [] :: splitSlash rest
    else
      match splitSlash rest with
      | [] => [[c]]
      | s :: ss => (c :: s) :: ss

/-- Model of JS `parts.join("/")`. -/
def joinSlash : List JStr → JStr
  | [] => []
  | [s] => s
  | s :: rest => s ++ '/' :: joinSlash rest

/-- `mapConcat f l` is the concatenation of `f` over `l` (JS `flatMap`). -/
def mapConcat (f : α → List β) : List α → List β
  | [] => []
  | a :: l => f a ++ mapConcat f l

/-- Traverse a list with a partial function, failing if any element fails. -/
def optTraverse (f : α → Option β) : List α → Option (List β)
  | [] => some []
  | a :: l =>
    match f a with
    | some b => (optTraverse f l).map (fun bs => b :: bs)
    | none => none

/-! ### Base64 (`atob` / `btoa`) -/

/-- The base64 alphabet in index order. -/
def b64Chars : List Char :=
  js "ABCDEFGHIJKLMNOPQRSTUVWXYZabcdefghijklmnopqrstuvwxyz0123456789+/"

/-- Index of a character in the base64 alphabet. -/
def b64Val (c : Char) : Option Nat := b64Chars.findIdx? (fun d => d == c)

/-- Character of a 6-bit value in the base64 alphabet. -/
def b64Char (n : Nat) : Char := b64Chars.getD n 'A'

/-- Decode a list of 6-bit values into bytes (groups of four values give
three bytes; a trailing group of three or two gives two or one byte). -/
def b64Decode : List Nat → List Nat
  | a :: b :: c :: d :: rest =>
    (a * 4 + b / 16) :: (b % 16 * 16 + c / 4) :: (c % 4 * 64 + d) :: b64Decode rest
  | [a, b, c] => [a * 4 + b / 16, b % 16 * 16 + c / 4]
  | [a, b] => [a * 4 + b / 16]
  | _ => []

/-- Encode bytes as base64 characters with `=` padding. -/
def b64Encode : List Nat → List Char
  | a :: b :: c :: rest =>
    b64Char (a / 4) :: b64Char (a % 4 * 16 + b / 16) ::
      b64Char (b % 16 * 4 + c / 64) :: b64Char (c % 64) :: b64Encode rest
  | [a, b] => [b64Char (a / 4), b64Char (a % 4 * 16 + b / 16), b64Char (b % 16 * 4), '=']
  | [a] => [b64Char (a / 4), b64Char (a % 4 * 16), '=', '=']
  | [] => []

/-- Model of the browser `atob`: strip padding, map characters to 6-bit
values, regroup into bytes, view bytes as Latin-1 characters. The browser
function raises `InvalidCharacterError` on malformed input; the model
instead skips characters outside the alphabet, so statements that depend
on `atob` carry a `base64Valid` hypothesis. -/
def atob (s : JStr) : JStr :=
  (b64Decode ((s.filter (fun c => c ≠ '=')).filterMap b64Val)).map Char.ofNat

/-- Model of the browser `btoa` on Latin-1 input. -/
def btoa (s : JStr) : JStr := b64Encode (s.map Char.toNat)

/-- Inputs on which the browser `atob` does not raise (alphabet characters
or padding, length a multiple of four; padding position is not checked). -/
def base64Valid (s : JStr) : Bool :=
  s.length % 4 == 0 && s.all (fun c => c == '=' || (b64Val c).isSome)

/-- Modelled from the spec: `src/utils.ts` is not among the given sources;
per the spec, authorization uses `Basic <base64(username:password)>`, so
`getToken` returns `btoa(username ++ ":" ++ password)`. -/
def getToken (username password : JStr) : JStr :=
  btoa (username ++ ':' :: password)

/-! ### Percent-encoding (`encodeURIComponent` / `encodeURI` /
`decodeURIComponent`) -/

/-- Uppercase hex digit of a value below 16. -/
def hexDigit (n : Nat) : Char := Char.ofNat (if n < 10 then 48 + n else 55 + n)

/-- Value of a hex digit (both cases accepted, as `decodeURIComponent` does). -/
def hexVal (c : Char) : Option Nat :=
  if 48 ≤ c.toNat ∧ c.toNat ≤ 57 then some (c.toNat - 48)
  else if 65 ≤ c.toNat ∧ c.toNat ≤ 70 then some (c.toNat - 55)
  else if 97 ≤ c.toNat ∧ c.toNat ≤ 102 then some (c.toNat - 87)
  else none

/-- `%XY` escape of one byte. -/
def percentByte (b : Nat) : List Char := '%' :: hexDigit (b / 16) :: [hexDigit (b % 16)]

/-- UTF-8 bytes of a code point. -/
def utf8encode (n : Nat) : List Nat :=
  if n < 128 then [n]
  else if n < 2048 then [192 + n / 64, 128 + n % 64]
  else if n < 65536 then [224 + n / 4096, 128 + n / 64 % 64, 128 + n % 64]
  else [240 + n / 262144, 128 + n / 4096 % 64, 128 + n / 64 % 64, 128 + n % 64]

/-- UTF-8 bytes of a string. -/
def utf8Str (s : JStr) : List Nat := mapConcat (fun c => utf8encode c.toNat) s

/-- ASCII alphanumeric code points. -/
def alnumCode (n : Nat) : Bool :=
  decide ((48 ≤ n ∧ n ≤ 57) ∨ (65 ≤ n ∧ n ≤ 90) ∨ (97 ≤ n ∧ n ≤ 122))

/-- Code points of `- _ . ! ~ * ' ( )`, unescaped by `encodeURIComponent`. -/
def uricMarks : List Nat := [45, 95, 46, 33, 126, 42, 39, 40, 41]

/-- Characters `encodeURIComponent` leaves unchanged. -/
def uricKeep (c : Char) : Bool := alnumCode c.toNat || uricMarks.contains c.toNat

/-- Code points of `; , / ? : @ & = + $ #`, additionally unescaped by
`encodeURI` (URI reserved characters and the fragment marker). -/
def uriExtra : List Nat := [59, 44, 47, 63, 58, 64, 38, 61, 43, 36, 35]

/-- Characters `encodeURI` leaves unchanged. -/
def uriKeep (c : Char) : Bool := uricKeep c || uriExtra.contains c.toNat

/-- Percent-encode one character against a keep-set. -/
def encodeCharWith (keep : Char → Bool) (c : Char) : List Char :=
  if keep c then [c] else mapConcat percentByte (utf8encode c.toNat)

/-- Percent-encode a string against a keep-set. -/
def percentEncodeWith (keep : Char → Bool) (s : JStr) : JStr :=
  mapConcat (encodeCharWith keep) s

/-- Model of the browser `encodeURIComponent` (on strings without lone
surrogates, where the browser function would throw). -/
def jsEncodeURIComponent (s : JStr) : JStr := percentEncodeWith uricKeep s

/-- Model of the browser `encodeURI`. -/
def jsEncodeURI (s : JStr) : JStr := percentEncodeWith uriKeep s

/-!
The first phase of `decodeURIComponent`: replace every `%XY` escape by its
byte and every plain character by its UTF-8 bytes; `none` on a truncated
or malformed escape. The two hex digits of an escape are consumed one list
level at a time by the `segBytesHexK` helpers.
-/
mutual

/-- Bytes denoted by a segment: UTF-8 bytes of plain characters, the
escaped byte of each `%XY`. -/
def segBytes : JStr → Option (List Nat)
  | [] => some []
  | c :: rest =>
    if c = '%' then segBytesHex1 rest
    else (segBytes rest).map (fun l => utf8encode c.toNat ++ l)

/-- Consume the high hex digit of an escape. -/
def segBytesHex1 : JStr → Option (List Nat)
  | h1 :: rest =>
    match hexVal h1 with
    | some hi => segBytesHex2 hi rest
    | none => none
  | [] => none

/-- Consume the low hex digit of an escape and emit the byte. -/
def segBytesHex2 (hi : Nat) : JStr → Option (List Nat)
  | h2 :: rest =>
    match hexVal h2 with
    | some lo => (segBytes rest).map (fun l => (16 * hi + lo) :: l)
    | none => none
  | [] => none

end

/-- Whether a byte is a UTF-8 continuation byte. -/
def isCont (b : Nat) : Bool := 128 ≤ b && b < 192

/-!
The UTF-8 decoder: `none` on a malformed sequence (overlong encodings are
not rejected, unlike the browser's decoder — no claim depends on malformed
escapes). The continuation bytes of a multi-byte sequence are consumed one
list level at a time by the `utf8decContK` helpers, which accumulate the
code point being decoded.
-/
mutual

/-- Decode UTF-8 bytes into code points. -/
def utf8decN : List Nat → Option (List Nat)
  | [] => some []
  | b :: bs =>
    if b < 128 then (utf8decN bs).map (fun l => b :: l)
    else if b < 192 then none
    else if b < 224 then utf8decCont1 (b - 192) bs
    else if b < 240 then utf8decCont2 (b - 224) bs
    else utf8decCont3 (b - 240) bs

/-- Consume the last continuation byte of a sequence, emit the code point
and decode the rest. -/
def utf8decCont1 (acc : Nat) : List Nat → Option (List Nat)
  | b :: bs =>
    if isCont b then (utf8decN bs).map (fun l => (acc * 64 + (b - 128)) :: l) else none
  | [] => none

/-- Consume the antepenultimate continuation byte of a sequence. -/
def utf8decCont2 (acc : Nat) : List Nat → Option (List Nat)
  | b :: bs => if isCont b then utf8decCont1 (acc * 64 + (b - 128)) bs else none
  | [] => none

/-- Consume the first continuation byte of a four-byte sequence. -/
def utf8decCont3 (acc : Nat) : List Nat → Option (List Nat)
  | b :: bs => if isCont b then utf8decCont2 (acc * 64 + (b - 128)) bs else none
  | [] => none

end

/-- A code point as a character, when it is a Unicode scalar value. -/
def charOfCode (n : Nat) : Option Char :=
  if n.isValidChar then some (Char.ofNat n) else none

/-- Model of the browser `decodeURIComponent`. -/
def jsDecodeURIComponent (s : JStr) : Option JStr :=
  (segBytes s).bind fun bs => (utf8decN bs).bind fun cps => optTraverse charOfCode cps

/-- `WebDavClientInner.encodePath`: split on `/`, `encodeURIComponent` each
segment, rejoin with `/`. -/
def encodePath (path : JStr) : JStr :=
  joinSlash ((splitSlash path).map jsEncodeURIComponent)

/-! ### The request monad

Each client operation is a sequential program that issues HTTP requests
and may raise a JS exception. The server (Obsidian's `requestUrl`) is an
oracle mapping the index of the request (how many requests were issued
before it) and the request itself to either a response or a thrown network
error. An operation evaluates to an outcome plus the trace of requests it
issued; `fuelOut` is a modelling artifact marking exhaustion of the fuel
that bounds the source's unbounded recursion. -/

/-- An HTTP request as handed to `requestUrl` (the body is never inspected
by the code under verification and is omitted). -/
structure Request where
  url : JStr
  method : String
  headers : List (String × JStr)
deriving DecidableEq

/-- A `requestUrl` response (only `status` and `text` are consumed). -/
structure Response where
  status : Nat
  text : Option JStr
deriving DecidableEq

/-- The server oracle: response (or thrown network error) for the `n`-th
request issued, counting all requests of the run. -/
abbrev Oracle := Nat → Request → Except JStr Response

/-- Result of a client computation. -/
inductive Outcome (α : Type) where
  | ok : α → Outcome α
  | threw : JStr → Outcome α
  | fuelOut : Outcome α
deriving DecidableEq

/-- A client computation: given the oracle and the number of requests
already issued, produce an outcome and the trace of requests issued. -/
def M (α : Type) := Oracle → Nat → Outcome α × List Request

/-- Return a value, issuing nothing. -/
def M.pure (a : α) : M α := fun _ _ => (.ok a, [])

/-- Sequence two computations, accumulating their traces. -/
def M.bind (x : M α) (f : α → M β) : M β := fun orc n =>
  match x orc n with
  | (.ok a, tr) =>
    let r := f a orc (n + tr.length)
    (r.1, tr ++ r.2)
  | (.threw e, tr) => (.threw e, tr)
  | (.fuelOut, tr) => (.fuelOut, tr)

/-- Raise a JS exception carrying a message. -/
def M.throw (e : JStr) : M α := fun _ _ => (.threw e, [])

/-- Fuel exhaustion (modelling artifact for unbounded recursion). -/
def M.fuelOut : M α := fun _ _ => (.fuelOut, [])

/-- Issue one request and receive the oracle's answer. -/
def M.send (r : Request) : M Response := fun orc n =>
  match orc n r with
  | .ok resp => (.ok resp, [r])
  | .error e => (.threw e, [r])

/-- The effective value of a header on the wire: JS object literals let a
later key override an earlier one, so the last binding wins. -/
def getHeader (hs : List (String × JStr)) (k : String) : Option JStr :=
  hs.reverse.lookup k

/-! ### `WebDavClientInner` -/

/-- State of `WebDavClientInner`: normalized base URL and the
`Authorization` header value fixed at construction. -/
structure WebDavClientInner where
  baseUrl : JStr
  authHeader : JStr
deriving DecidableEq

/-- The `WebDavClientInner` constructor: strip a trailing slash from the
URL; when both username and password are non-empty, decode the stored
password and build a Basic credential, else leave the header empty. -/
def mkInnerClient (url username password : JStr) : WebDavClientInner :=
  { baseUrl := if url.getLast? = some '/' then url.dropLast else url
    authHeader :=
      if username ≠ [] ∧ password ≠ [] then js "Basic " ++ getToken username (atob password)
      else [] }

/-- `WebDavClientInner.buildUrl`: prepend a slash if missing, append to the
base URL. -/
def WebDavClientInner.buildUrl (c : WebDavClientInner) (path : JStr) : JStr :=
  c.baseUrl ++ (if path.head? = some '/' then path else '/' :: path)

/-- `WebDavClientInner.request`: attach the configured `Authorization`
header, spread the caller's headers after it (later keys win), and issue
the request. -/
def WebDavClientInner.request (c : WebDavClientInner) (url : JStr) (method : String)
    (headers : List (String × JStr)) : M Response :=
  M.send { url := url, method := method, headers := ("Authorization", c.authHeader) :: headers }

/-- `WebDavClientInner.handleResponseCode`: raise on any status ≥ 400,
carrying the status and the server text (or `"Unknown error"`). -/
def handleResponseCode (r : Response) : M Unit :=
  if r.status ≥ 400 then
    M.throw (natStr r.status ++ ' ' :: (r.text.getD (js "Unknown error")))
  else M.pure ()

/-- JS `path.substring(0, path.lastIndexOf("/"))` (empty when `path` has
no slash, matching `substring`'s clamping of `-1`). -/
def substringBeforeLastSlash (s : JStr) : JStr :=
  match s.reverse.findIdx? (fun c => c == '/') with
  | some i => s.take (s.length - 1 - i)
  | none => []

/-- `WebDavClientInner.createDirectory`: issue MKCOL, return the raw
response. -/
def WebDavClientInner.createDirectory (c : WebDavClientInner) (path : JStr) : M Response :=
  c.request (c.buildUrl (encodePath path)) "MKCOL" []

/-- The `for` loop of `ensureDirectoryExists`: MKCOL each cumulative
prefix, treating 405/409 as "already exists" (a console warning, no
effect), raising any other status ≥ 400. -/
def WebDavClientInner.ensureDirLoop (c : WebDavClientInner) :
    JStr → List JStr → M Unit
  | _, [] => M.pure ()
  | currentPath, dir :: rest =>
    let cur := currentPath ++ '/' :: dir
    M.bind (c.createDirectory cur) fun resp =>
      if resp.status = 405 ∨ resp.status = 409 then c.ensureDirLoop cur rest
      else M.bind (handleResponseCode resp) fun _ => c.ensureDirLoop cur rest

/-- `WebDavClientInner.ensureDirectoryExists`: split the path on `/`,
drop empty segments, MKCOL each cumulative prefix. -/
def WebDavClientInner.ensureDirectoryExists (c : WebDavClientInner) (path : JStr) : M Unit :=
  c.ensureDirLoop [] ((splitSlash path).filter (fun d => d ≠ []))

/-- `WebDavClientInner.putFileContents`: PUT the data; on 409 ensure the
parent directory exists, recurse (the source recursion is unbounded —
`fuel` bounds it in the model), and return JS `undefined` (`none`);
otherwise validate the status and return `true` (`some true`). -/
def WebDavClientInner.putFileContents (c : WebDavClientInner) :
    Nat → JStr → M (Option Bool)
  | 0, _ => M.fuelOut
  | fuel + 1, path =>
    M.bind
      (c.request (c.buildUrl (encodePath path)) "PUT"
        [("Content-Type", js "application/octet-stream")]) fun response =>
      if response.status = 409 then
        M.bind (c.ensureDirectoryExists (substringBeforeLastSlash path)) fun _ =>
          M.bind (c.putFileContents fuel path) fun _ => M.pure none
      else
        M.bind (handleResponseCode response) fun _ => M.pure (some true)

/-- `WebDavClientInner.exists`: HEAD the path; 200 is `true`, 404 is
`false`, any other status ≥ 400 raises, any other status below 400 falls
through to `false`. -/
def WebDavClientInner.exists (c : WebDavClientInner) (path : JStr) : M Bool :=
  M.bind (c.request (c.buildUrl (encodePath path)) "HEAD" []) fun response =>
    if response.status = 200 then M.pure true
    else if response.status = 404 then M.pure false
    else M.bind (handleResponseCode response) fun _ => M.pure false

/-- The client's "destination exists" error message. -/
def destExistsMsg (newPath : JStr) : JStr :=
  js "Destination file already exists: " ++ quoted newPath

/-- `WebDavClientInner.moveFile`: unless overwriting, HEAD the destination
first and raise if it exists; issue MOVE with `Destination` and
`Overwrite` headers; on 404/409/500 ensure the destination's parent
directory exists and recurse (unbounded in the source, fuel-bounded in
the model); on 412 raise "destination exists"; otherwise validate the
status. -/
def WebDavClientInner.moveFile (c : WebDavClientInner) :
    Nat → JStr → JStr → Bool → M Unit
  | 0, _, _, _ => M.fuelOut
  | fuel + 1, oldPath, newPath, overwrite =>
    let url := c.buildUrl (encodePath oldPath)
    M.bind
      (if overwrite then M.pure ()
       else
         M.bind (c.exists newPath) fun ex =>
           if ex then M.throw (destExistsMsg newPath) else M.pure ()) fun _ =>
      let newUrl := c.buildUrl (encodePath newPath)
      M.bind
        (c.request url "MOVE"
          [("Destination", newUrl), ("Overwrite", js (if overwrite then "T" else "F"))])
        fun response =>
        if response.status = 404 ∨ response.status = 409 ∨ response.status = 500 then
          M.bind (c.ensureDirectoryExists (substringBeforeLastSlash newPath)) fun _ =>
            M.bind (c.moveFile fuel oldPath newPath overwrite) fun _ => M.pure ()
        else if response.status = 412 then M.throw (destExistsMsg newPath)
        else M.bind (handleResponseCode response) fun _ => M.pure ()

/-- `WebDavClientInner.customRequest`: same encoding and auth wiring as
every other operation; the response is returned unvalidated. -/
def WebDavClientInner.customRequest (c : WebDavClientInner) (path : JStr) (method : String)
    (headers : List (String × JStr)) : M Response :=
  c.request (c.buildUrl (encodePath path)) method headers

/-! ### `WebDavClient` (the outer facade) -/

/-- The plugin settings consumed by the client (`""` models an absent
optional field, matching the defaults). -/
structure Settings where
  url : JStr
  username : JStr
  password : JStr
  token : JStr
deriving DecidableEq

/-- `WebDavClient.initClient`: construct the inner client from settings. -/
def initClient (s : Settings) : WebDavClientInner :=
  mkInnerClient s.url s.username s.password

/-- `FileInfo` (the spec's TransferResult): file name and public URL. -/
structure FileInfo where
  fileName : JStr
  url : JStr
deriving DecidableEq

/-- `WebDavClient.getUrl`: append the path and, when a token is configured,
`?token=<atob(token)>`, then `encodeURI` the whole string. -/
def WebDavClient.getUrl (s : Settings) (path : JStr) : JStr :=
  jsEncodeURI (s.url ++ path ++
    (if s.token.length > 0 then js "?token=" ++ atob s.token else []))

/-- `WebDavClient.getPath`: remove the first occurrence of the configured
URL, then the first occurrence of the token query string; no URI
decoding happens (the source's `decodeURI` is commented out). -/
def WebDavClient.getPath (s : Settings) (url : JStr) : JStr :=
  jsRemoveFirst (if s.token.length > 0 then js "?token=" ++ atob s.token else [])
    (jsRemoveFirst s.url url)

/-- JS truthiness of the `putFileContents` result (`undefined` is falsy). -/
def jsTruthy (v : Option Bool) : Bool := v.getD false

/-- `WebDavClient.uploadFile`: delegate to `putFileContents`; when its
result is falsy raise the upload-failure error naming the file; else
return the file name and public URL. -/
def WebDavClient.uploadFile (s : Settings) (fuel : Nat) (fileName path : JStr) :
    M FileInfo :=
  M.bind ((initClient s).putFileContents fuel path) fun success =>
    if jsTruthy success = false then
      M.throw (js "Failed to upload file: " ++ quoted fileName)
    else M.pure { fileName := fileName, url := WebDavClient.getUrl s path }

/-- `WebDavClient.testConnection`: PROPFIND the root with `Depth: 0`
inside a try/catch; 207 is success (`none`), any other status yields a
diagnostic string, and a thrown error is converted to its display
string. -/
def WebDavClient.testConnection (s : Settings) : M (Option JStr) := fun orc n =>
  match (initClient s).customRequest (js "/") "PROPFIND" [("Depth", js "0")] orc n with
  | (.ok resp, tr) =>
    (.ok
      (if resp.status = 207 then none
       else some (js "Check connection failed: " ++ natStr resp.status)), tr)
  | (.threw e, tr) => (.ok (some e), tr)
  | (.fuelOut, tr) => (.fuelOut, tr)

/-! ### The image proxy loader (`settings.ts`)

DOM image elements are modelled as records held in a store keyed by an
element identity (`Nat`), mirroring JS object identity. A network fetch is
modelled as appending the fetched URL to a log and minting a fresh blob
URL `blob:<k>` (the claims under verification only concern successful
fetches). `URL.revokeObjectURL` appends to a revocation log. -/

/-- An `HTMLImageElement` as far as the loader reads or writes it: its
`src` and the `loaded` / `webdav-loaded` attributes. -/
structure Img where
  src : JStr
  loadedAttr : Option JStr
  webdavLoadedAttr : Option JStr
deriving DecidableEq

/-- JS `Map.get`. -/
def mapGet (m : List (JStr × JStr)) (k : JStr) : Option JStr := m.lookup k

/-- JS `Map.set`: update the existing entry in place, else append. -/
def mapSet (m : List (JStr × JStr)) (k v : JStr) : List (JStr × JStr) :=
  match m with
  | [] => [(k, v)]
  | (k0, v0) :: rest => if k0 = k then (k, v) :: rest else (k0, v0) :: mapSet rest k v

/-- JS `Map.delete`. -/
def mapDelete (m : List (JStr × JStr)) (k : JStr) : List (JStr × JStr) :=
  match m with
  | [] => []
  | (k0, v0) :: rest => if k0 = k then rest else (k0, v0) :: mapDelete rest k

/-- Update an element in the DOM store. -/
def storeSet (els : List (Nat × Img)) (id : Nat) (el : Img) : List (Nat × Img) :=
  match els with
  | [] => [(id, el)]
  | (i, e) :: rest => if i = id then (id, el) :: rest else (i, e) :: storeSet rest id el

/-- Joint state of the DOM store and the `WebDavImageLoader`. -/
structure LoaderState where
  els : List (Nat × Img)
  blobs : List (JStr × JStr)
  fetched : List JStr
  revoked : List JStr
  nextBlob : Nat
deriving DecidableEq

/-- The blob URL minted for the `k`-th `URL.createObjectURL` call. -/
def blobUrl (k : Nat) : JStr := js "blob:" ++ natStr k

/-- `WebDavImageLoader.shouldLoadImage`: the element is not yet marked
`webdav-loaded`, has a non-empty `src`, and the `src` matches the
configured server (`isWebdavUrl`, whose definition lives in the absent
`main.ts` and is abstracted as a predicate parameter). -/
def shouldLoadImage (isWebdavUrl : JStr → Bool) (el : Img) : Bool :=
  el.webdavLoadedAttr ≠ some (js "true") && el.src ≠ [] && isWebdavUrl el.src

/-- The theme-dependent loading placeholder data URL (`loadingDark` /
`loadingLight` are long inline SVG data URLs; their content is opaque to
the logic, so the model keeps short stand-in data URLs). -/
def loadingPlaceholder (dark : Bool) : JStr :=
  if dark then js "data:image/svg+xml;base64,dark" else js "data:image/svg+xml;base64,light"

/-- `WebDavImageLoader.loadImage el cache`: skip elements that fail
`shouldLoadImage`; on a cache hit assign the cached blob URL and mark the
element loaded; on a miss show the placeholder, fetch the original URL
with Basic auth, assign a fresh blob URL, mark the element loaded, and —
when `cache` — store the blob URL under the original URL (when not
`cache`, the blob is scheduled for revocation after the element's `load`
event; the claims under verification only use `cache = true`). -/
def WebDavImageLoader.loadImage (isWebdavUrl : JStr → Bool) (dark : Bool)
    (id : Nat) (cache : Bool) (st : LoaderState) : LoaderState :=
  match st.els.lookup id with
  | none => st
  | some el =>
    if shouldLoadImage isWebdavUrl el then
      let url := el.src
      match mapGet st.blobs url with
      | some b =>
        { st with
            els := storeSet st.els id { el with src := b, loadedAttr := some (js "true") } }
      | none =>
        let el1 := { el with src := loadingPlaceholder dark }
        let b := blobUrl st.nextBlob
        let el2 := { el1 with src := b, loadedAttr := some (js "true") }
        let st2 :=
          { st with
              els := storeSet st.els id el2
              fetched := st.fetched ++ [url]
              nextBlob := st.nextBlob + 1 }
        if cache then { st2 with blobs := mapSet st2.blobs url b } else st2
    else st

/-- `WebDavImageLoader.revokeImage el`: look up the blob map at the
element's current `src`; when an entry is found, revoke its blob URL and
delete the mapping. -/
def WebDavImageLoader.revokeImage (id : Nat) (st : LoaderState) : LoaderState :=
  match st.els.lookup id with
  | none => st
  | some el =>
    match mapGet st.blobs el.src with
    | some b =>
      { st with revoked := st.revoked ++ [b], blobs := mapDelete st.blobs el.src }
    | none => st

/-- `WebDavImageLoaderExtension.loadImage`: skip elements already in the
tracking set, else delegate to the loader with `cache = true` and add the
element to the set. -/
def WebDavImageLoaderExtension.loadImage (isWebdavUrl : JStr → Bool) (dark : Bool)
    (images : List Nat) (id : Nat) (st : LoaderState) : List Nat × LoaderState :=
  if id ∈ images then (images, st)
  else (images ++ [id], WebDavImageLoader.loadImage isWebdavUrl dark id true st)

/-- `WebDavImageLoaderExtension.destroy`: disconnect the observer (no
modelled effect), call `revokeImage` for every tracked element, clear the
tracking set. -/
def WebDavImageLoaderExtension.destroy (images : List Nat) (st : LoaderState) :
    List Nat × LoaderState :=
  ([], images.foldl (fun acc id => WebDavImageLoader.revokeImage id acc) st)

/-! ### Named wire requests and concrete instances (used in theorem
statements and witnesses) -/

/-- The HEAD request `exists` issues for a path. -/
def headRequest (c : WebDavClientInner) (path : JStr) : Request :=
  { url := c.buildUrl (encodePath path), method := "HEAD",
    headers := [("Authorization", c.authHeader)] }

/-- The PUT request `putFileContents` issues for a path. -/
def putRequest (c : WebDavClientInner) (path : JStr) : Request :=
  { url := c.buildUrl (encodePath path), method := "PUT",
    headers := [("Authorization", c.authHeader), ("Content-Type", js "application/octet-stream")] }

/-- The MKCOL request `createDirectory` issues for a path. -/
def mkcolRequest (c : WebDavClientInner) (path : JStr) : Request :=
  { url := c.buildUrl (encodePath path), method := "MKCOL",
    headers := [("Authorization", c.authHeader)] }

/-- The MOVE request `moveFile` issues. -/
def moveRequest (c : WebDavClientInner) (oldPath newPath : JStr) (overwrite : Bool) : Request :=
  { url := c.buildUrl (encodePath oldPath), method := "MOVE",
    headers :=
      [("Authorization", c.authHeader), ("Destination", c.buildUrl (encodePath newPath)),
       ("Overwrite", js (if overwrite then "T" else "F"))] }

/-- The PROPFIND request `testConnection` issues. -/
def tcRequest (s : Settings) : Request :=
  { url := (initClient s).buildUrl (encodePath (js "/")), method := "PROPFIND",
    headers := [("Authorization", (initClient s).authHeader), ("Depth", js "0")] }

/-- An oracle answering every request with a fixed status and no body. -/
def orcConst (status : Nat) : Oracle := fun _ _ => .ok { status := status, text := none }

/-- An oracle answering the first request with 404 and later ones with 412. -/
def orc404then412 : Oracle := fun n _ =>
  .ok { status := if n = 0 then 404 else 412, text := none }

/-- An oracle answering the first request with 409 (missing parent
collection) and every later one with 201. -/
def orc409then201 : Oracle := fun n _ =>
  .ok { status := if n = 0 then 409 else 201, text := none }

/-- A client with no credentials against `http://h`. -/
def clientNoAuth : WebDavClientInner := mkInnerClient (js "http://h") [] []

/-- A client with username `u` and (stored, base64) password `cA==`
(decoding to `p`) against `http://h`. -/
def clientBasic : WebDavClientInner := mkInnerClient (js "http://h") (js "u") (js "cA==")

/-- Settings with no credentials and no token against `http://h`. -/
def settingsNoAuth : Settings :=
  { url := js "http://h", username := [], password := [], token := [] }

/-- An image element as first discovered: remote `src`, no attributes. -/
def imgInit (u : JStr) : Img :=
  { src := u, loadedAttr := none, webdavLoadedAttr := none }

/-- A loader state with a given DOM store and an empty cache and logs. -/
def loaderInit (els : List (Nat × Img)) : LoaderState :=
  { els := els, blobs := [], fetched := [], revoked := [], nextBlob := 0 }

/-- A concrete `isWebdavUrl` predicate recognizing one remote image URL. -/
def isWebdavHi : JStr → Bool := fun s => s == js "http://h/i.png"

/-- Settings with a stored access token `dG9r` (base64 of `tok`). -/
def settingsTok : Settings :=
  { url := js "http://h", username := [], password := [], token := js "dG9r" }

/-! ### Evaluation lemmas for the request monad -/

/-- Evaluate a bind whose first computation returns normally. -/
theorem M.bind_eq_ok {α β : Type} {x : M α} {f : α → M β} {orc : Oracle} {n : Nat}
    {a : α} {tr : List Request} (h : x orc n = (.ok a, tr)) :
    M.bind x f orc n =
      ((f a orc (n + tr.length)).1, tr ++ (f a orc (n + tr.length)).2) := by
  unfold M.bind
  rw [h]

/-- Evaluate a bind whose first computation throws. -/
theorem M.bind_eq_threw {α β : Type} {x : M α} {f : α → M β} {orc : Oracle} {n : Nat}
    {e : JStr} {tr : List Request} (h : x orc n = (.threw e, tr)) :
    M.bind x f orc n = (.threw e, tr) := by
  unfold M.bind
  rw [h]

/-- Evaluate a bind whose first computation runs out of fuel. -/
theorem M.bind_eq_fuelOut {α β : Type} {x : M α} {f : α → M β} {orc : Oracle} {n : Nat}
    {tr : List Request} (h : x orc n = (.fuelOut, tr)) :
    M.bind x f orc n = (.fuelOut, tr) := by
  unfold M.bind
  rw [h]

/-- Evaluate a send whose oracle answer is a response. -/
theorem M.send_ok {r : Request} {orc : Oracle} {n : Nat} {resp : Response}
    (h : orc n r = .ok resp) : M.send r orc n = (.ok resp, [r]) := by
  unfold M.send
  rw [h]

/-- Evaluate a send whose oracle answer is a thrown network error. -/
theorem M.send_err {r : Request} {orc : Oracle} {n : Nat} {e : JStr}
    (h : orc n r = .error e) : M.send r orc n = (.threw e, [r]) := by
  unfold M.send
  rw [h]

/-- `exists` evaluated on a 200 answer: `true`, one HEAD issued. -/
theorem exists_eval_200 {c : WebDavClientInner} {path : JStr} {orc : Oracle} {n : Nat}
    {r : Response} (h : orc n (headRequest c path) = .ok r) (h200 : r.status = 200) :
    c.exists path orc n = (.ok true, [headRequest c path]) := by
  simp only [WebDavClientInner.exists, WebDavClientInner.request, headRequest] at h ⊢
  rw [M.bind_eq_ok (M.send_ok h)]
  simp [h200, M.pure]

/-- `exists` evaluated on a 404 answer: `false`, one HEAD issued. -/
theorem exists_eval_404 {c : WebDavClientInner} {path : JStr} {orc : Oracle} {n : Nat}
    {r : Response} (h : orc n (headRequest c path) = .ok r) (h404 : r.status = 404) :
    c.exists path orc n = (.ok false, [headRequest c path]) := by
  simp only [WebDavClientInner.exists, WebDavClientInner.request, headRequest] at h ⊢
  rw [M.bind_eq_ok (M.send_ok h)]
  simp [h404, M.pure]

/-- C10: for every path, when the HEAD response status is neither 200 nor
404 and is below 400 (e.g. 204 or a 3xx status), `exists` returns `false`
rather than raising, having issued exactly the one HEAD request. -/
theorem exists_below_400_returns_false
    (c : WebDavClientInner) (path : JStr) (orc : Oracle) (n : Nat) (r : Response)
    (h : orc n (headRequest c path) = .ok r)
    (h200 : r.status ≠ 200) (h404 : r.status ≠ 404) (hlt : r.status < 400) :
    c.exists path orc n = (.ok false, [headRequest c path]) := by
  have hge : ¬ r.status ≥ 400 := by omega
  simp only [WebDavClientInner.exists, WebDavClientInner.request, headRequest] at h ⊢
  rw [M.bind_eq_ok (M.send_ok h)]
  simp [h200, h404, handleResponseCode, hge, M.bind, M.pure]

/-- Witness for C10 at a concrete client, path and a 204 response. -/
theorem exists_below_400_returns_false_witness :
    orcConst 204 0 (headRequest clientNoAuth (js "/p")) =
      .ok { status := 204, text := none } ∧
    clientNoAuth.exists (js "/p") (orcConst 204) 0 =
      (.ok false, [headRequest clientNoAuth (js "/p")]) :=
  ⟨rfl,
    exists_below_400_returns_false clientNoAuth (js "/p") (orcConst 204) 0
      { status := 204, text := none } rfl (by decide) (by decide) (by decide)⟩

/-- C8: `testConnection` never throws — it always yields an `ok` outcome —
and it yields `none` (success) exactly when the oracle answers the
PROPFIND with a 207 response; every other answer, including a thrown
network error, yields a human-readable string. -/
theorem testConnection_diagnostic (s : Settings) (orc : Oracle) (n : Nat) :
    (∃ v, (WebDavClient.testConnection s orc n).1 = .ok v) ∧
    ((WebDavClient.testConnection s orc n).1 = .ok none ↔
      ∃ r, orc n (tcRequest s) = .ok r ∧ r.status = 207) := by
  have hreq :
      ({ url := (initClient s).buildUrl (encodePath (js "/")), method := "PROPFIND",
         headers := [("Authorization", (initClient s).authHeader), ("Depth", js "0")] } :
        Request) = tcRequest s := rfl
  simp only [WebDavClient.testConnection, WebDavClientInner.customRequest,
    WebDavClientInner.request, M.send, hreq]
  cases h : orc n (tcRequest s) with
  | ok r =>
    by_cases h207 : r.status = 207 <;> simp [h, h207]
  | error e => simp [h]

/-- C5: (1) with `overwrite = false` and a destination whose HEAD check
answers 200 (exists), `moveFile` raises the destination-exists error and
the trace contains only the HEAD — no MOVE is ever issued; (2) when the
HEAD check passes (404) but the MOVE itself answers 412, the same error is
raised; (3) a 412 answer raises the same error also with
`overwrite = true`, where no upfront check runs at all. -/
theorem moveFile_destination_exists_protection :
    (∀ (c : WebDavClientInner) (orc : Oracle) (n fuel : Nat) (oldPath newPath : JStr)
        (r : Response),
      orc n (headRequest c newPath) = .ok r → r.status = 200 →
      c.moveFile (fuel + 1) oldPath newPath false orc n =
        (.threw (destExistsMsg newPath), [headRequest c newPath])) ∧
    (∀ (c : WebDavClientInner) (orc : Oracle) (n fuel : Nat) (oldPath newPath : JStr)
        (r r' : Response),
      orc n (headRequest c newPath) = .ok r → r.status = 404 →
      orc (n + 1) (moveRequest c oldPath newPath false) = .ok r' → r'.status = 412 →
      c.moveFile (fuel + 1) oldPath newPath false orc n =
        (.threw (destExistsMsg newPath),
         [headRequest c newPath, moveRequest c oldPath newPath false])) ∧
    (∀ (c : WebDavClientInner) (orc : Oracle) (n fuel : Nat) (oldPath newPath : JStr)
        (r : Response),
      orc n (moveRequest c oldPath newPath true) = .ok r → r.status = 412 →
      c.moveFile (fuel + 1) oldPath newPath true orc n =
        (.threw (destExistsMsg newPath), [moveRequest c oldPath newPath true])) := by
  refine ⟨?_, ?_, ?_⟩
  · intro c orc n fuel oldPath newPath r h h200
    simp only [WebDavClientInner.moveFile]
    refine M.bind_eq_threw ?_
    rw [if_neg (by simp)]
    rw [M.bind_eq_ok (exists_eval_200 h h200)]
    simp [M.throw]
  · intro c orc n fuel oldPath newPath r r' h h404 h' h412
    simp only [WebDavClientInner.moveFile]
    have hcheck :
        (if false = true then M.pure () else
          M.bind (c.exists newPath) fun ex =>
            if ex = true then M.throw (destExistsMsg newPath) else M.pure ()) orc n =
          (.ok (), [headRequest c newPath]) := by
      rw [if_neg (by simp)]
      rw [M.bind_eq_ok (exists_eval_404 h h404)]
      simp [M.pure]
    rw [M.bind_eq_ok hcheck]
    simp only [WebDavClientInner.request]
    simp only [moveRequest] at h'
    rw [M.bind_eq_ok (M.send_ok (by simpa using h'))]
    have : ¬ (r'.status = 404 ∨ r'.status = 409 ∨ r'.status = 500) := by omega
    simp [this, h412, M.throw, moveRequest]
  · intro c orc n fuel oldPath newPath r h h412
    simp only [WebDavClientInner.moveFile]
    rw [if_pos trivial]
    rw [M.bind_eq_ok (show M.pure () orc n = ((Outcome.ok ()), ([] : List Request)) from rfl)]
    simp only [WebDavClientInner.request]
    simp only [moveRequest] at h
    rw [M.bind_eq_ok (M.send_ok (by simpa using h))]
    have : ¬ (r.status = 404 ∨ r.status = 409 ∨ r.status = 500) := by omega
    simp [this, h412, M.throw, moveRequest]

/-- Witness for C5: all three parts applied at concrete clients, paths,
and oracles. -/
theorem moveFile_destination_exists_protection_witness :
    (clientNoAuth.moveFile 1 (js "/a") (js "/b") false (orcConst 200) 0 =
      (.threw (destExistsMsg (js "/b")), [headRequest clientNoAuth (js "/b")])) ∧
    (clientNoAuth.moveFile 1 (js "/a") (js "/b") false orc404then412 0 =
      (.threw (destExistsMsg (js "/b")),
       [headRequest clientNoAuth (js "/b"),
        moveRequest clientNoAuth (js "/a") (js "/b") false])) ∧
    (clientNoAuth.moveFile 1 (js "/a") (js "/b") true (orcConst 412) 0 =
      (.threw (destExistsMsg (js "/b")),
       [moveRequest clientNoAuth (js "/a") (js "/b") true])) :=
  ⟨moveFile_destination_exists_protection.1 clientNoAuth (orcConst 200) 0 0 (js "/a")
      (js "/b") { status := 200, text := none } rfl rfl,
   moveFile_destination_exists_protection.2.1 clientNoAuth orc404then412 0 0 (js "/a")
      (js "/b") { status := 404, text := none } { status := 412, text := none } rfl rfl rfl
      rfl,
   moveFile_destination_exists_protection.2.2 clientNoAuth (orcConst 412) 0 0 (js "/a")
      (js "/b") { status := 412, text := none } rfl rfl⟩

/-- C2: evaluating the code at the failing input. The server answers the
first PUT with 409, the MKCOL with 201 and the retried PUT with 201, so
the directory-creation pass runs once and the retried PUT succeeds — yet
`uploadFile` raises the upload-failure error, because the 409 branch of
`putFileContents` ends in a bare `return` (JS `undefined`, falsy) instead
of `return true`. The trace confirms PUT, MKCOL, PUT. -/
theorem uploadFile_throws_after_successful_retry :
    WebDavClient.uploadFile settingsNoAuth 2 (js "x.png") (js "/dir/x.png") orc409then201 0 =
      (.threw (js "Failed to upload file: " ++ quoted (js "x.png")),
       [putRequest clientNoAuth (js "/dir/x.png"),
        mkcolRequest clientNoAuth (js "/dir"),
        putRequest clientNoAuth (js "/dir/x.png")]) := by decide

/-- C4: evaluating the code at the failing input. Against a server that
answers every PUT with 409 (and whose MKCOL answers are tolerated), the
409 branch recurses again on every retry: for every fuel bound the run
ends in `fuelOut` — the recursion never bottoms out — and the PUT is
re-issued once per fuel unit, so no bound of two requests holds. -/
theorem putFileContents_unbounded_recursion :
    ∀ fuel n : Nat,
      clientNoAuth.putFileContents fuel (js "/f") (orcConst 409) n =
        (.fuelOut, List.replicate fuel (putRequest clientNoAuth (js "/f"))) := by
  have hsend : ∀ (m : Nat) (r : Request),
      orcConst 409 m r = .ok { status := 409, text := none } := fun _ _ => rfl
  have hens : ∀ m : Nat,
      clientNoAuth.ensureDirectoryExists (substringBeforeLastSlash (js "/f"))
        (orcConst 409) m = (.ok (), []) := fun _ => rfl
  intro fuel
  induction fuel with
  | zero => intro n; rfl
  | succ f ih =>
    intro n
    simp only [WebDavClientInner.putFileContents, WebDavClientInner.request]
    rw [M.bind_eq_ok (M.send_ok (hsend n _))]
    simp only [List.length_cons, List.length_nil, Nat.zero_add]
    rw [if_pos trivial]
    rw [M.bind_eq_ok (hens (n + 1))]
    simp only [List.length_nil, List.append_nil, Nat.add_zero]
    rw [M.bind_eq_fuelOut (ih (n + 1))]
    simp [putRequest, List.replicate_succ]

/-! ### Authorization header lemmas (C3) -/

/-- A send issues exactly its request, whatever the oracle answers. -/
theorem send_trace (r : Request) (orc : Oracle) (n : Nat) : (M.send r orc n).2 = [r] := by
  unfold M.send
  cases orc n r <;> rfl

/-- A `request` issues exactly one wire request, with the configured
`Authorization` binding first and the caller's headers after it. -/
theorem request_trace (c : WebDavClientInner) (u : JStr) (m : String)
    (hs : List (String × JStr)) (orc : Oracle) (n : Nat) :
    (c.request u m hs orc n).2 =
      [{ url := u, method := m, headers := ("Authorization", c.authHeader) :: hs }] := by
  unfold WebDavClientInner.request
  exact send_trace _ orc n

/-- A predicate holding on every request of a bind's trace, given it holds
on both sides. -/
theorem bind_trace_pred {α β : Type} {P : Request → Prop} {x : M α} {f : α → M β}
    {orc : Oracle} {n : Nat}
    (hx : ∀ r ∈ (x orc n).2, P r)
    (hf : ∀ a m, ∀ r ∈ (f a orc m).2, P r) :
    ∀ r ∈ (M.bind x f orc n).2, P r := by
  intro r hr
  unfold M.bind at hr
  rcases hx0 : x orc n with ⟨o, tr⟩
  rw [hx0] at hr hx
  cases o with
  | ok a =>
    simp only [List.mem_append] at hr
    rcases hr with h | h
    · exact hx r h
    · exact hf a _ r h
  | threw e => exact hx r hr
  | fuelOut => exact hx r hr

/-- `handleResponseCode` issues nothing. -/
theorem handleResponseCode_trace (resp : Response) (orc : Oracle) (n : Nat) :
    (handleResponseCode resp orc n).2 = [] := by
  unfold handleResponseCode
  split <;> rfl

/-- On the wire, the last `Authorization` binding wins: with the
configured binding first, a caller binding overrides it, else the
configured one stands. -/
theorem getHeader_auth_cons (a : JStr) (hs : List (String × JStr)) :
    getHeader (("Authorization", a) :: hs) "Authorization" =
      some ((getHeader hs "Authorization").getD a) := by
  unfold getHeader
  rw [List.reverse_cons]
  generalize hs.reverse = l
  induction l with
  | nil => simp [List.lookup]
  | cons p l ih =>
    cases p with
    | mk k0 v0 =>
      rw [List.cons_append]
      by_cases hk : ("Authorization" : String) == k0
      · simp [List.lookup, hk]
      · simp only [List.lookup, hk] at ih ⊢
        exact ih

/-- A header list whose keys avoid `k` looks up to `none`. -/
theorem getHeader_eq_none (hs : List (String × JStr)) (k : String)
    (hno : ∀ p ∈ hs, p.1 ≠ k) : getHeader hs k = none := by
  unfold getHeader
  simp only [List.lookup_eq_none_iff, List.mem_reverse]
  intro a ha
  simp only [bne_iff_ne, ne_eq]
  exact fun e => hno a ha e.symm

/-- With no caller `Authorization` binding, the configured one is sent. -/
theorem getHeader_auth_no_override (a : JStr) (hs : List (String × JStr))
    (hno : ∀ p ∈ hs, p.1 ≠ "Authorization") :
    getHeader (("Authorization", a) :: hs) "Authorization" = some a := by
  rw [getHeader_auth_cons, getHeader_eq_none hs _ hno]
  rfl

/-- The `handleResponseCode`-then-return tail of every operation issues
nothing. -/
theorem handle_then_pure_trace {α : Type} (a : Response) (v : α) (orc : Oracle) (m : Nat) :
    (M.bind (handleResponseCode a) (fun _ => M.pure v) orc m).2 = [] := by
  unfold handleResponseCode
  by_cases h : a.status ≥ 400
  · rw [if_pos h]
    rfl
  · rw [if_neg h]
    rfl

/-- Every request issued by `exists` carries the configured Authorization. -/
theorem auth_exists (c : WebDavClientInner) (path : JStr) (orc : Oracle) (n : Nat) :
    ∀ r ∈ (c.exists path orc n).2,
      getHeader r.headers "Authorization" = some c.authHeader := by
  unfold WebDavClientInner.exists
  apply bind_trace_pred
  · rw [request_trace]
    intro r hr
    simp only [List.mem_singleton] at hr
    subst hr
    exact getHeader_auth_no_override _ _ (by intro p hp; simp at hp)
  · intro a m
    split
    · intro r hr
      simp [M.pure] at hr
    · split
      · intro r hr
        simp [M.pure] at hr
      · intro r hr
        rw [handle_then_pure_trace] at hr
        simp at hr

/-- Every request issued by `ensureDirLoop` carries the configured
Authorization. -/
theorem auth_ensureDirLoop (c : WebDavClientInner) (dirs : List JStr) :
    ∀ (cur : JStr) (orc : Oracle) (n : Nat), ∀ r ∈ (c.ensureDirLoop cur dirs orc n).2,
      getHeader r.headers "Authorization" = some c.authHeader := by
  induction dirs with
  | nil =>
    intro cur orc n r hr
    simp [WebDavClientInner.ensureDirLoop, M.pure] at hr
  | cons d l ih =>
    intro cur orc n
    simp only [WebDavClientInner.ensureDirLoop]
    apply bind_trace_pred
    · unfold WebDavClientInner.createDirectory
      rw [request_trace]
      intro r hr
      simp only [List.mem_singleton] at hr
      subst hr
      exact getHeader_auth_no_override _ _ (by intro p hp; simp at hp)
    · intro a m
      split
      · exact ih _ orc m
      · apply bind_trace_pred
        · rw [handleResponseCode_trace]
          intro r hr
          simp at hr
        · intro b m2
          exact ih _ orc m2

/-- Every request issued by `ensureDirectoryExists` carries the configured
Authorization. -/
theorem auth_ensureDirectoryExists (c : WebDavClientInner) (path : JStr) (orc : Oracle)
    (n : Nat) :
    ∀ r ∈ (c.ensureDirectoryExists path orc n).2,
      getHeader r.headers "Authorization" = some c.authHeader := by
  unfold WebDavClientInner.ensureDirectoryExists
  exact auth_ensureDirLoop c _ _ orc n

/-- Every request issued by `putFileContents` carries the configured
Authorization. -/
theorem auth_putFileContents (c : WebDavClientInner) (fuel : Nat) :
    ∀ (path : JStr) (orc : Oracle) (n : Nat), ∀ r ∈ (c.putFileContents fuel path orc n).2,
      getHeader r.headers "Authorization" = some c.authHeader := by
  induction fuel with
  | zero =>
    intro path orc n r hr
    simp [WebDavClientInner.putFileContents, M.fuelOut] at hr
  | succ f ih =>
    intro path orc n
    simp only [WebDavClientInner.putFileContents]
    apply bind_trace_pred
    · rw [request_trace]
      intro r hr
      simp only [List.mem_singleton] at hr
      subst hr
      refine getHeader_auth_no_override _ _ ?_
      intro p hp
      simp at hp
      simp [hp]
    · intro a m
      split
      · apply bind_trace_pred
        · exact auth_ensureDirectoryExists c _ orc m
        · intro b m2
          apply bind_trace_pred
          · exact ih path orc m2
          · intro b2 m3 r2 hr2
            simp [M.pure] at hr2
      · intro r hr
        rw [handle_then_pure_trace] at hr
        simp at hr

/-- Every request issued by `moveFile` carries the configured
Authorization. -/
theorem auth_moveFile (c : WebDavClientInner) (fuel : Nat) :
    ∀ (oldPath newPath : JStr) (ow : Bool) (orc : Oracle) (n : Nat),
      ∀ r ∈ (c.moveFile fuel oldPath newPath ow orc n).2,
        getHeader r.headers "Authorization" = some c.authHeader := by
  induction fuel with
  | zero =>
    intro oldPath newPath ow orc n r hr
    simp [WebDavClientInner.moveFile, M.fuelOut] at hr
  | succ f ih =>
    intro oldPath newPath ow orc n
    simp only [WebDavClientInner.moveFile]
    apply bind_trace_pred
    · split
      · intro r hr
        simp [M.pure] at hr
      · apply bind_trace_pred
        · exact auth_exists c newPath orc n
        · intro b m
          split
          · intro r2 hr2
            simp [M.throw] at hr2
          · intro r2 hr2
            simp [M.pure] at hr2
    · intro a m
      apply bind_trace_pred
      · rw [request_trace]
        intro r hr
        simp only [List.mem_singleton] at hr
        subst hr
        refine getHeader_auth_no_override _ _ ?_
        intro p hp
        simp at hp
        rcases hp with h | h <;> simp [h]
      · intro b m2
        split
        · apply bind_trace_pred
          · exact auth_ensureDirectoryExists c _ orc m2
          · intro b2 m3
            apply bind_trace_pred
            · exact ih oldPath newPath ow orc m3
            · intro b3 m4 r2 hr2
              simp [M.pure] at hr2
        · split
          · intro r hr
            simp [M.throw] at hr
          · intro r hr
            rw [handle_then_pure_trace] at hr
            simp at hr

/-- C3 counterexample: a `customRequest` with a caller-supplied
`Authorization` header puts the caller's value on the wire. The client is
configured with credential `Basic dTpw`, yet the single issued request's
effective `Authorization` header is the caller's `X` — the caller-supplied
entry does replace the configured one, because the source spreads the
caller headers after the `Authorization` key. -/
theorem customRequest_caller_overrides_authorization :
    (clientBasic.customRequest (js "/") "GET" [("Authorization", js "X")] (orcConst 200)
        0).2 =
      [{ url := js "http://h/", method := "GET",
         headers := [("Authorization", js "Basic dTpw"), ("Authorization", js "X")] }] ∧
    getHeader [("Authorization", js "Basic dTpw"), ("Authorization", js "X")]
        "Authorization" = some (js "X") ∧
    clientBasic.authHeader = js "Basic dTpw" ∧
    js "X" ≠ js "Basic dTpw" := by decide

/-- C3 amended: every wire request carries an `Authorization` header; for
`customRequest` its effective value is the caller's own `Authorization`
entry when one is supplied and the configured one otherwise, and for the
client's internal operations (`putFileContents`, `moveFile`, `exists`),
which never pass a caller `Authorization`, it is always the configured
one. -/
theorem auth_header_policy :
    (∀ (c : WebDavClientInner) (path : JStr) (method : String)
        (hs : List (String × JStr)) (orc : Oracle) (n : Nat),
      ∀ r ∈ (c.customRequest path method hs orc n).2,
        getHeader r.headers "Authorization" =
          some ((getHeader hs "Authorization").getD c.authHeader)) ∧
    (∀ (c : WebDavClientInner) (fuel : Nat) (path : JStr) (orc : Oracle) (n : Nat),
      ∀ r ∈ (c.putFileContents fuel path orc n).2,
        getHeader r.headers "Authorization" = some c.authHeader) ∧
    (∀ (c : WebDavClientInner) (fuel : Nat) (oldPath newPath : JStr) (ow : Bool)
        (orc : Oracle) (n : Nat),
      ∀ r ∈ (c.moveFile fuel oldPath newPath ow orc n).2,
        getHeader r.headers "Authorization" = some c.authHeader) ∧
    (∀ (c : WebDavClientInner) (path : JStr) (orc : Oracle) (n : Nat),
      ∀ r ∈ (c.exists path orc n).2,
        getHeader r.headers "Authorization" = some c.authHeader) := by
  refine ⟨?_, ?_, ?_, ?_⟩
  · intro c path method hs orc n
    unfold WebDavClientInner.customRequest
    rw [request_trace]
    intro r hr
    simp only [List.mem_singleton] at hr
    subst hr
    exact getHeader_auth_cons c.authHeader hs
  · intro c fuel path orc n
    exact auth_putFileContents c fuel path orc n
  · intro c fuel oldPath newPath ow orc n
    exact auth_moveFile c fuel oldPath newPath ow orc n
  · intro c path orc n
    exact auth_exists c path orc n

/-- Witness for C3's amended policy: the override formula evaluated at the
counterexample's request, and the configured header on a concrete PUT. -/
theorem auth_header_policy_witness :
    getHeader
        ({ url := js "http://h/", method := "GET",
           headers := [("Authorization", js "Basic dTpw"), ("Authorization", js "X")] } :
          Request).headers "Authorization" =
      some ((getHeader [("Authorization", js "X")] "Authorization").getD
        clientBasic.authHeader) ∧
    getHeader (putRequest clientNoAuth (js "/f")).headers "Authorization" =
      some clientNoAuth.authHeader :=
  ⟨auth_header_policy.1 clientBasic (js "/") "GET" [("Authorization", js "X")]
      (orcConst 200) 0 _ (by decide),
   auth_header_policy.2.1 clientNoAuth 1 (js "/f") (orcConst 200) 0 _ (by decide)⟩

/-- C6: loading the same remote URL through two elements in sequence (with
caching on) performs exactly one network fetch (`fetched = [u]`), leaves
exactly one blob-cache entry for the URL, and assigns the cached blob URL
to both elements — the second load is served from the cache. -/
theorem loadImage_caches_and_reuses
    (isW : JStr → Bool) (u : JStr) (d1 d2 : Bool)
    (hW : isW u = true) (hne : u ≠ []) :
    WebDavImageLoader.loadImage isW d2 2 true
        (WebDavImageLoader.loadImage isW d1 1 true
          (loaderInit [(1, imgInit u), (2, imgInit u)])) =
      { els :=
          [(1, { src := blobUrl 0, loadedAttr := some (js "true"), webdavLoadedAttr := none }),
           (2, { src := blobUrl 0, loadedAttr := some (js "true"), webdavLoadedAttr := none })],
        blobs := [(u, blobUrl 0)],
        fetched := [u],
        revoked := [],
        nextBlob := 1 } := by
  simp [WebDavImageLoader.loadImage, loaderInit, imgInit, shouldLoadImage, mapGet, mapSet,
    storeSet, hW, hne, List.lookup]

/-- Witness for C6 at a concrete URL and predicate. -/
theorem loadImage_caches_and_reuses_witness :
    WebDavImageLoader.loadImage isWebdavHi true 2 true
        (WebDavImageLoader.loadImage isWebdavHi false 1 true
          (loaderInit [(1, imgInit (js "http://h/i.png")), (2, imgInit (js "http://h/i.png"))])) =
      { els :=
          [(1, { src := blobUrl 0, loadedAttr := some (js "true"), webdavLoadedAttr := none }),
           (2, { src := blobUrl 0, loadedAttr := some (js "true"), webdavLoadedAttr := none })],
        blobs := [(js "http://h/i.png", blobUrl 0)],
        fetched := [js "http://h/i.png"],
        revoked := [],
        nextBlob := 1 } :=
  loadImage_caches_and_reuses isWebdavHi (js "http://h/i.png") false true (by decide)
    (by decide)

/-- C7: evaluating the code at the failing input. After one cached load of
a remote URL, the element's `src` is the blob URL while the cache is keyed
by the original URL, so `destroy` — which looks the cache up at the
element's current `src` — revokes nothing and leaves the entry in the
cache; only the tracking set is emptied. -/
theorem destroy_does_not_release_cached_blob :
    (WebDavImageLoader.loadImage isWebdavHi false 1 true
        (loaderInit [(1, imgInit (js "http://h/i.png"))])).blobs =
      [(js "http://h/i.png", blobUrl 0)] ∧
    WebDavImageLoaderExtension.destroy [1]
        (WebDavImageLoader.loadImage isWebdavHi false 1 true
          (loaderInit [(1, imgInit (js "http://h/i.png"))])) =
      ([],
        WebDavImageLoader.loadImage isWebdavHi false 1 true
          (loaderInit [(1, imgInit (js "http://h/i.png"))])) ∧
    (WebDavImageLoader.loadImage isWebdavHi false 1 true
        (loaderInit [(1, imgInit (js "http://h/i.png"))])).revoked = [] := by decide

/-! ### Path/URL round-trip lemmas (C1) -/

/-- Percent-encoding is the identity on strings of keep-characters. -/
theorem percentEncodeWith_id (keep : Char → Bool) (s : JStr)
    (h : ∀ c ∈ s, keep c = true) : percentEncodeWith keep s = s := by
  induction s with
  | nil => rfl
  | cons c s ih =>
    simp only [percentEncodeWith, mapConcat] at ih ⊢
    rw [encodeCharWith, if_pos (h c (List.mem_cons_self _ _)),
      ih fun d hd => h d (List.mem_cons_of_mem _ hd)]
    rfl

/-- Removing an empty pattern leaves the string unchanged (JS
`s.replace("", "") === s`). -/
theorem jsRemoveFirst_nil_pat (s : JStr) : jsRemoveFirst [] s = s := by
  cases s with
  | nil => rfl
  | cons c rest => simp [jsRemoveFirst, List.isPrefixOf]

/-- A list is a `isPrefixOf` any extension of itself. -/
theorem isPrefixOf_append_self (l t : JStr) : l.isPrefixOf (l ++ t) = true := by
  induction l with
  | nil => simp [List.isPrefixOf]
  | cons c l ih => simp [List.isPrefixOf, ih]

/-- Removing a pattern from a string that starts with it drops exactly the
prefix (the first occurrence is the leading one). -/
theorem jsRemoveFirst_append_self (pat rest : JStr) :
    jsRemoveFirst pat (pat ++ rest) = rest := by
  cases pat with
  | nil => simpa using jsRemoveFirst_nil_pat rest
  | cons c p =>
    rw [List.cons_append, jsRemoveFirst, ← List.cons_append,
      if_pos (isPrefixOf_append_self (c :: p) rest)]
    exact List.drop_left (c :: p) rest

/-- Removing a pattern that starts with `?` from `p ++ pattern`, where `p`
contains no `?`, drops exactly the suffix: the first occurrence of the
query string is the appended one. -/
theorem jsRemoveFirst_suffix (q p : JStr) (hq : q = [] ∨ ∃ t, q = '?' :: t)
    (hp : '?' ∉ p) : jsRemoveFirst q (p ++ q) = p := by
  rcases hq with rfl | ⟨t, rfl⟩
  · rw [List.append_nil]
    exact jsRemoveFirst_nil_pat p
  · induction p with
    | nil =>
      simpa using jsRemoveFirst_append_self ('?' :: t) []
    | cons c p ih =>
      have hc : c ≠ '?' := fun e => hp (by rw [e]; exact List.mem_cons_self _ _)
      rw [List.cons_append, jsRemoveFirst,
        if_neg (by simp [List.isPrefixOf, Ne.symm hc])]
      rw [ih fun e => hp (List.mem_cons_of_mem _ e)]

/-- C1 (amended): the round-trip `getPath (getUrl p) = p` holds provided
the base URL, the path and the decoded token consist of characters
`encodeURI` leaves unchanged, the stored token is valid base64 (so the
browser `atob` does not raise), and the path contains no `?` (so the first
occurrence of the token query string is the appended one). Without these
provisos the round-trip fails, because `getPath` never URI-decodes. -/
theorem getPath_getUrl_roundtrip (s : Settings) (p : JStr)
    (hb : ∀ c ∈ s.url, uriKeep c = true)
    (hp : ∀ c ∈ p, uriKeep c = true)
    (ht : ∀ c ∈ atob s.token, uriKeep c = true)
    (htv : base64Valid s.token = true)
    (hq : '?' ∉ p) :
    WebDavClient.getPath s (WebDavClient.getUrl s p) = p := by
  unfold WebDavClient.getUrl WebDavClient.getPath
  set q : JStr := if s.token.length > 0 then js "?token=" ++ atob s.token else []
    with hqdef
  have hkq : ∀ c ∈ q, uriKeep c = true := by
    rw [hqdef]
    split
    · intro c hc
      rcases List.mem_append.mp hc with h | h
      · have hlit : ∀ c ∈ js "?token=", uriKeep c = true := by decide
        exact hlit c h
      · exact ht c h
    · intro c hc
      simp at hc
  have hk : ∀ c ∈ s.url ++ p ++ q, uriKeep c = true := by
    intro c hc
    rcases List.mem_append.mp hc with h | h
    · rcases List.mem_append.mp h with h1 | h1
      · exact hb c h1
      · exact hp c h1
    · exact hkq c h
  rw [show jsEncodeURI (s.url ++ p ++ q) = s.url ++ p ++ q from
    percentEncodeWith_id uriKeep _ hk]
  rw [List.append_assoc, jsRemoveFirst_append_self s.url (p ++ q)]
  refine jsRemoveFirst_suffix q p ?_ hq
  rw [hqdef]
  split
  · right
    exact ⟨js "token=" ++ atob s.token, rfl⟩
  · left
    rfl

/-- C1 counterexample: with no token configured and a path containing a
space, `getUrl` percent-encodes the space but `getPath` does not decode
it, so the round-trip returns `/a%20b` for the original `/a b`. -/
theorem getPath_getUrl_not_inverse :
    WebDavClient.getUrl settingsNoAuth (js "/a b") = js "http://h/a%20b" ∧
    WebDavClient.getPath settingsNoAuth
        (WebDavClient.getUrl settingsNoAuth (js "/a b")) = js "/a%20b" ∧
    js "/a%20b" ≠ js "/a b" := by decide

/-- Witness for C1's amended round-trip, with a configured token. -/
theorem getPath_getUrl_roundtrip_witness :
    (∀ c ∈ settingsTok.url, uriKeep c = true) ∧
    (∀ c ∈ js "/a.png", uriKeep c = true) ∧
    (∀ c ∈ atob settingsTok.token, uriKeep c = true) ∧
    base64Valid settingsTok.token = true ∧
    '?' ∉ js "/a.png" ∧
    WebDavClient.getPath settingsTok
        (WebDavClient.getUrl settingsTok (js "/a.png")) = js "/a.png" :=
  ⟨by decide, by decide, by decide, by decide, by decide,
    getPath_getUrl_roundtrip settingsTok (js "/a.png") (by decide) (by decide) (by decide)
      (by decide) (by decide)⟩

/-! ### Wire-encoding round-trip lemmas (C9) -/

/-- Every character's code point is a Unicode scalar value below 0x110000. -/
theorem char_toNat_lt (c : Char) : c.toNat < 1114112 := by
  rcases c.valid with h | h
  · exact Nat.lt_trans h (by norm_num)
  · exact h.2

/-- UTF-8 bytes of an in-range code point are bytes. -/
theorem utf8encode_lt (n : Nat) (hn : n < 1114112) : ∀ b ∈ utf8encode n, b < 256 := by
  unfold utf8encode
  intro b hb
  split at hb
  · simp at hb
    omega
  · split at hb
    · simp at hb
      rcases hb with h | h <;> omega
    · split at hb
      · simp at hb
        rcases hb with h | h | h <;> omega
      · simp at hb
        rcases hb with h | h | h | h <;> omega

/-- Prepending the UTF-8 encoding of an in-range code point decodes to
that code point. -/
theorem utf8decN_encode_prepend (n : Nat) (hn : n < 1114112) (bs : List Nat) :
    utf8decN (utf8encode n ++ bs) = (utf8decN bs).map (fun l => n :: l) := by
  have hcont : ∀ m : Nat, m < 64 → isCont (128 + m) = true := by
    intro m hm
    simp only [isCont, Bool.and_eq_true, decide_eq_true_eq]
    omega
  unfold utf8encode
  by_cases h1 : n < 128
  · rw [if_pos h1]
    rw [List.cons_append, List.nil_append, utf8decN, if_pos h1]
  · rw [if_neg h1]
    by_cases h2 : n < 2048
    · rw [if_pos h2]
      rw [List.cons_append, List.cons_append, List.nil_append, utf8decN]
      rw [if_neg (by omega), if_neg (by omega), if_pos (by omega)]
      rw [utf8decCont1, if_pos (hcont _ (by omega))]
      have hv : (192 + n / 64 - 192) * 64 + (128 + n % 64 - 128) = n := by omega
      rw [hv]
    · rw [if_neg h2]
      by_cases h3 : n < 65536
      · rw [if_pos h3]
        rw [List.cons_append, List.cons_append, List.cons_append, List.nil_append, utf8decN]
        rw [if_neg (by omega), if_neg (by omega), if_neg (by omega), if_pos (by omega)]
        rw [utf8decCont2, if_pos (hcont _ (by omega))]
        rw [utf8decCont1, if_pos (hcont _ (by omega))]
        have hv : ((224 + n / 4096 - 224) * 64 + (128 + n / 64 % 64 - 128)) * 64 +
            (128 + n % 64 - 128) = n := by omega
        rw [hv]
      · rw [if_neg h3]
        rw [List.cons_append, List.cons_append, List.cons_append, List.cons_append,
          List.nil_append, utf8decN]
        rw [if_neg (by omega), if_neg (by omega), if_neg (by omega), if_neg (by omega)]
        rw [utf8decCont3, if_pos (hcont _ (by omega))]
        rw [utf8decCont2, if_pos (hcont _ (by omega))]
        rw [utf8decCont1, if_pos (hcont _ (by omega))]
        have hv : (((240 + n / 262144 - 240) * 64 + (128 + n / 4096 % 64 - 128)) * 64 +
            (128 + n / 64 % 64 - 128)) * 64 + (128 + n % 64 - 128) = n := by omega
        rw [hv]

/-- A character's own code point converts back to the character. -/
theorem charOfCode_toNat (c : Char) : charOfCode c.toNat = some c := by
  unfold charOfCode
  rw [if_pos (show (Char.toNat c).isValidChar from c.valid), Char.ofNat_toNat]

/-- Hex digits round-trip through `hexVal`. -/
theorem hexVal_hexDigit (d : Nat) (hd : d < 16) : hexVal (hexDigit d) = some d := by
  interval_cases d <;> decide

/-- No hex digit is a slash. -/
theorem hexDigit_ne_slash (d : Nat) (hd : d < 16) : hexDigit d ≠ '/' := by
  interval_cases d <;> decide

/-- A keep-character of `encodeURIComponent` is never `%`. -/
theorem uricKeep_ne_percent (c : Char) (h : uricKeep c = true) : c ≠ '%' := by
  intro e
  rw [e] at h
  exact absurd h (by decide)

/-- A keep-character of `encodeURIComponent` is never `/`. -/
theorem uricKeep_ne_slash (c : Char) (h : uricKeep c = true) : c ≠ '/' := by
  intro e
  rw [e] at h
  exact absurd h (by decide)

/-- Membership in a `mapConcat`. -/
theorem mem_mapConcat {α β : Type} (f : α → List β) (l : List α) (x : β) :
    x ∈ mapConcat f l ↔ ∃ a ∈ l, x ∈ f a := by
  induction l with
  | nil => simp [mapConcat]
  | cons a l ih => simp [mapConcat, ih]

/-- One-step unfolding of `segBytes` on a cons. -/
theorem segBytes_cons (c : Char) (rest : JStr) :
    segBytes (c :: rest) = if c = '%' then segBytesHex1 rest
      else (segBytes rest).map (fun l => utf8encode c.toNat ++ l) := rfl

/-- `segBytesHex1` on a valid high hex digit. -/
theorem segBytesHex1_eval (h1 : Char) (rest : JStr) (a : Nat) (e : hexVal h1 = some a) :
    segBytesHex1 (h1 :: rest) = segBytesHex2 a rest := by
  rw [show segBytesHex1 (h1 :: rest) = (match hexVal h1 with
      | some hi => segBytesHex2 hi rest
      | none => none) from rfl, e]

/-- `segBytesHex2` on a valid low hex digit. -/
theorem segBytesHex2_eval (hi : Nat) (h2 : Char) (rest : JStr) (b : Nat)
    (e : hexVal h2 = some b) :
    segBytesHex2 hi (h2 :: rest) = (segBytes rest).map (fun l => (16 * hi + b) :: l) := by
  rw [show segBytesHex2 hi (h2 :: rest) = (match hexVal h2 with
      | some lo => (segBytes rest).map (fun l => (16 * hi + lo) :: l)
      | none => none) from rfl, e]

/-- `segBytes` undoes the percent-escaping of a byte sequence. -/
theorem segBytes_percent_prepend (bytes : List Nat) (hb : ∀ b ∈ bytes, b < 256) (t : JStr) :
    segBytes (mapConcat percentByte bytes ++ t) = (segBytes t).map (fun l => bytes ++ l) := by
  induction bytes with
  | nil =>
    simp only [mapConcat, List.nil_append]
    cases segBytes t <;> simp
  | cons b bytes ih =>
    have hb0 : b < 256 := hb b (List.mem_cons_self _ _)
    simp only [mapConcat, percentByte, List.cons_append, List.nil_append, List.append_assoc]
    rw [segBytes_cons, if_pos rfl]
    rw [segBytesHex1_eval _ _ _ (hexVal_hexDigit _ (by omega))]
    rw [segBytesHex2_eval _ _ _ _ (hexVal_hexDigit _ (by omega))]
    rw [ih fun x hx => hb x (List.mem_cons_of_mem _ hx)]
    have hv : 16 * (b / 16) + b % 16 = b := by omega
    rw [hv]
    cases segBytes t <;> simp

/-- `segBytes` turns an encoded segment back into the segment's UTF-8
bytes, in front of whatever follows. -/
theorem segBytes_encSeg_prepend (s t : JStr) :
    segBytes (jsEncodeURIComponent s ++ t) =
      (segBytes t).map (fun l => utf8Str s ++ l) := by
  induction s with
  | nil =>
    simp only [jsEncodeURIComponent, percentEncodeWith, mapConcat, utf8Str, List.nil_append]
    cases segBytes t <;> simp
  | cons c s ih =>
    simp only [jsEncodeURIComponent, percentEncodeWith, mapConcat, utf8Str] at ih ⊢
    by_cases hk : uricKeep c = true
    · have hc : c ≠ '%' := uricKeep_ne_percent c hk
      rw [encodeCharWith, if_pos hk, List.singleton_append, List.cons_append,
        segBytes_cons, if_neg hc, ih]
      cases segBytes t <;> simp
    · rw [encodeCharWith, if_neg hk, List.append_assoc]
      rw [segBytes_percent_prepend _ (utf8encode_lt _ (char_toNat_lt c)), ih]
      cases segBytes t <;> simp

/-- Decoding the UTF-8 byte string of `s` yields its code points, in front
of whatever follows. -/
theorem utf8decN_utf8Str (s : JStr) (bs : List Nat) :
    utf8decN (utf8Str s ++ bs) = (utf8decN bs).map (fun l => s.map Char.toNat ++ l) := by
  induction s with
  | nil =>
    simp only [utf8Str, mapConcat, List.nil_append, List.map_nil]
    cases utf8decN bs <;> simp
  | cons c s ih =>
    simp only [utf8Str, mapConcat] at ih ⊢
    rw [List.append_assoc, utf8decN_encode_prepend _ (char_toNat_lt c), ih]
    cases utf8decN bs <;> simp

/-- Converting a string's code points back to characters recovers it. -/
theorem optTraverse_charOfCode (s : JStr) :
    optTraverse charOfCode (s.map Char.toNat) = some s := by
  induction s with
  | nil => rfl
  | cons c s ih => simp [optTraverse, charOfCode_toNat, ih]

/-- `decodeURIComponent` is a left inverse of `encodeURIComponent` on
every (well-formed) segment. -/
theorem jsDecode_encSeg (s : JStr) :
    jsDecodeURIComponent (jsEncodeURIComponent s) = some s := by
  unfold jsDecodeURIComponent
  have h1 : segBytes (jsEncodeURIComponent s) = some (utf8Str s) := by
    have h := segBytes_encSeg_prepend s []
    simpa [show segBytes ([] : JStr) = some [] from rfl] using h
  have h2 : utf8decN (utf8Str s) = some (s.map Char.toNat) := by
    have h := utf8decN_utf8Str s []
    simpa [show utf8decN ([] : List Nat) = some [] from rfl] using h
  simp [h1, h2, optTraverse_charOfCode]

/-- An encoded segment never contains a slash: keep-characters are never
`/`, and escapes consist of `%` and hex digits. -/
theorem encSeg_no_slash (s : JStr) : '/' ∉ jsEncodeURIComponent s := by
  intro hmem
  unfold jsEncodeURIComponent percentEncodeWith at hmem
  rcases (mem_mapConcat _ _ _).mp hmem with ⟨c, _, hx⟩
  rw [encodeCharWith] at hx
  by_cases hk : uricKeep c = true
  · rw [if_pos hk] at hx
    simp only [List.mem_singleton] at hx
    exact uricKeep_ne_slash c hk hx.symm
  · rw [if_neg hk] at hx
    rcases (mem_mapConcat _ _ _).mp hx with ⟨b, hb, hx2⟩
    have hb256 : b < 256 := utf8encode_lt _ (char_toNat_lt c) b hb
    simp only [percentByte, List.mem_cons, List.not_mem_nil, or_false] at hx2
    rcases hx2 with h | h | h
    · exact absurd h (by decide)
    · exact hexDigit_ne_slash (b / 16) (by omega) h.symm
    · exact hexDigit_ne_slash (b % 16) (by omega) h.symm

/-- `splitSlash` never returns the empty list. -/
theorem splitSlash_ne_nil (p : JStr) : splitSlash p ≠ [] := by
  cases p with
  | nil => simp [splitSlash]
  | cons c rest =>
    rw [splitSlash]
    split
    · simp
    · split <;> simp

/-- No piece produced by `splitSlash` contains a slash. -/
theorem splitSlash_no_slash (p : JStr) : ∀ x ∈ splitSlash p, '/' ∉ x := by
  induction p with
  | nil =>
    intro x hx
    simp only [splitSlash, List.mem_singleton] at hx
    subst hx
    simp
  | cons c rest ih =>
    intro x hx
    rw [splitSlash] at hx
    by_cases hc : c = '/'
    · rw [if_pos hc] at hx
      rcases List.mem_cons.mp hx with rfl | h
      · simp
      · exact ih x h
    · rw [if_neg hc] at hx
      cases hsp : splitSlash rest with
      | nil => exact absurd hsp (splitSlash_ne_nil rest)
      | cons s ss =>
        rw [hsp] at hx
        rcases List.mem_cons.mp hx with rfl | h
        · intro hmem
          rcases List.mem_cons.mp hmem with h1 | h1
          · exact hc h1.symm
          · exact ih s (by rw [hsp]; exact List.mem_cons_self _ _) h1
        · exact ih x (by rw [hsp]; exact List.mem_cons_of_mem s h)

/-- A slash-free string splits to the single-piece list. -/
theorem splitSlash_single (s : JStr) (h : '/' ∉ s) : splitSlash s = [s] := by
  induction s with
  | nil => rfl
  | cons c rest ih =>
    have hc : c ≠ '/' := fun e => h (by rw [e]; exact List.mem_cons_self _ _)
    rw [splitSlash, if_neg hc, ih fun m => h (List.mem_cons_of_mem _ m)]

/-- Splitting `s ++ "/" ++ t` with `s` slash-free peels off `s`. -/
theorem splitSlash_append (s t : JStr) (h : '/' ∉ s) :
    splitSlash (s ++ '/' :: t) = s :: splitSlash t := by
  induction s with
  | nil => rw [List.nil_append, splitSlash, if_pos rfl]
  | cons c rest ih =>
    have hc : c ≠ '/' := fun e => h (by rw [e]; exact List.mem_cons_self _ _)
    rw [List.cons_append, splitSlash, if_neg hc,
      ih fun m => h (List.mem_cons_of_mem _ m)]

/-- `splitSlash` undoes `joinSlash` on non-empty lists of slash-free
pieces. -/
theorem splitSlash_joinSlash (ls : List JStr) (hne : ls ≠ [])
    (h : ∀ s ∈ ls, '/' ∉ s) : splitSlash (joinSlash ls) = ls := by
  induction ls with
  | nil => exact absurd rfl hne
  | cons s ls ih =>
    cases ls with
    | nil => exact splitSlash_single s (h s (List.mem_cons_self _ _))
    | cons a ls2 =>
      rw [show joinSlash (s :: a :: ls2) = s ++ '/' :: joinSlash (a :: ls2) from rfl]
      rw [splitSlash_append _ _ (h s (List.mem_cons_self _ _))]
      rw [ih (by simp) fun x hx => h x (List.mem_cons_of_mem _ hx)]

/-- `joinSlash` undoes `splitSlash`. -/
theorem joinSlash_splitSlash (p : JStr) : joinSlash (splitSlash p) = p := by
  induction p with
  | nil => rfl
  | cons c rest ih =>
    rw [splitSlash]
    by_cases hc : c = '/'
    · rw [if_pos hc]
      cases hsp : splitSlash rest with
      | nil => exact absurd hsp (splitSlash_ne_nil rest)
      | cons s ss =>
        rw [show joinSlash ([] :: s :: ss) = [] ++ '/' :: joinSlash (s :: ss) from rfl]
        rw [List.nil_append, ← hsp, ih, hc]
    · rw [if_neg hc]
      cases hsp : splitSlash rest with
      | nil => exact absurd hsp (splitSlash_ne_nil rest)
      | cons s ss =>
        rw [hsp] at ih
        cases ss with
        | nil =>
          have h2 : s = rest := ih
          rw [show (match (s :: [] : List JStr) with
              | [] => [[c]]
              | s :: ss => (c :: s) :: ss) = [c :: s] from rfl]
          rw [show joinSlash [c :: s] = c :: s from rfl, h2]
        | cons b ss2 =>
          have h2 : s ++ '/' :: joinSlash (b :: ss2) = rest := ih
          rw [show (match (s :: b :: ss2 : List JStr) with
              | [] => [[c]]
              | s :: ss => (c :: s) :: ss) = (c :: s) :: b :: ss2 from rfl]
          rw [show joinSlash ((c :: s) :: b :: ss2) =
              (c :: s) ++ '/' :: joinSlash (b :: ss2) from rfl]
          rw [List.cons_append, h2]

/-- Decoding each encoded segment recovers the segments. -/
theorem optTraverse_decode_encode (ls : List JStr) :
    optTraverse jsDecodeURIComponent (ls.map jsEncodeURIComponent) = some ls := by
  induction ls with
  | nil => rfl
  | cons s ls ih => simp [optTraverse, jsDecode_encSeg, ih]

/-- C9: `encodePath` splits on `/`, percent-encodes every segment
independently and rejoins with `/`: the split of the encoded path is the
segment-wise encoding of the split of the original (so the separating
slashes survive unencoded), no encoded segment contains a slash, and
decoding each segment of the encoded result and rejoining recovers the
original path. -/
theorem encodePath_roundtrip (p : JStr) :
    splitSlash (encodePath p) = (splitSlash p).map jsEncodeURIComponent ∧
    (∀ s ∈ splitSlash (encodePath p), '/' ∉ s) ∧
    (optTraverse jsDecodeURIComponent (splitSlash (encodePath p))).map joinSlash =
      some p := by
  have hsplit : splitSlash (encodePath p) = (splitSlash p).map jsEncodeURIComponent := by
    unfold encodePath
    refine splitSlash_joinSlash _ ?_ ?_
    · simp [splitSlash_ne_nil p]
    · intro s hs
      rcases List.mem_map.mp hs with ⟨x, _, rfl⟩
      exact encSeg_no_slash x
  refine ⟨hsplit, ?_, ?_⟩
  · intro s hs
    rw [hsplit] at hs
    rcases List.mem_map.mp hs with ⟨x, _, rfl⟩
    exact encSeg_no_slash x
  · rw [hsplit, optTraverse_decode_encode]
    simp [joinSlash_splitSlash]
